/-
  Verification of the core nanoparticle-structure pipeline of
  `wanglabpy/npstructs.py` (preprocessing → segmentation → localization →
  batch driver) against its natural-language specification.

  Shallow embedding conventions:
  * a 2-D raster is a `List (List ·)` of rows (row-major, like numpy);
  * machine floats are modelled by `ℚ` (the concrete images the claims are
    evaluated on only involve dyadic values, where IEEE doubles are exact);
  * `skimage.filters.gaussian` has a transcendental kernel, hence no exact
    rational model: it is passed as an explicit function parameter `g`
    (sigma → image → image) to every definition that uses it;
  * every other library primitive used by the source (skimage/scipy,
    2020-era versions, i.e. skimage ≤ 0.18) is translated concretely below,
    with its documented semantics recalled in the comment.
-/
import Mathlib

/- The Batteries rational-number operations are `irreducible` by default;
concrete pipeline evaluations in witnesses and counterexamples reduce
them, so they are made semireducible for this file. -/
attribute [local semireducible] Rat.add Rat.mul Rat.sub Rat.inv Rat.ofScientific

namespace NpStructs

/-- A grayscale raster: list of rows of rational intensities. -/
abbrev Img := List (List ℚ)

/-- A boolean raster (numpy bool array). -/
abbrev BImg := List (List Bool)

/-- An integer raster (labels / uint16 images). -/
abbrev NImg := List (List ℕ)

/-- Number of rows of a raster. -/
def rowsOf (img : List (List α)) : ℕ := img.length

/-- Number of columns of a raster (length of the first row; all the rasters
the pipeline builds are rectangular). -/
def colsOf (img : List (List α)) : ℕ := (img.headD []).length

/-- Build an `m × n` raster from an index function. -/
def grid (m n : ℕ) (f : ℕ → ℕ → α) : List (List α) :=
  (List.range m).map fun i => (List.range n).map fun j => f i j

/-- In-bounds element access with a default (numpy `a[i][j]`). -/
def getE (img : List (List α)) (d : α) (i j : ℕ) : α :=
  ((img[i]?.getD [])[j]?).getD d

/-- scipy's `mode='reflect'` boundary index: the sequence `a b c d` is
extended as `d c b a | a b c d | d c b a`, i.e. period `2n`, mirrored
about the array edges (edge values repeated). -/
def reflectIdx (n : ℕ) (i : ℤ) : ℕ :=
  if n = 0 then 0
  else if (i % (2 * (n : ℤ))).toNat < n then (i % (2 * (n : ℤ))).toNat
  else 2 * n - 1 - (i % (2 * (n : ℤ))).toNat

/-- Boundary-aware access with scipy's default `reflect` mode, used by all
the scipy.ndimage-backed filters the source calls. -/
def getR (img : List (List α)) (d : α) (i j : ℤ) : α :=
  getE img d (reflectIdx (rowsOf img) i) (reflectIdx (colsOf img) j)

/-! ### Structuring elements

`skimage.morphology.disk(radius)` is the boolean `(2r+1)²` array of points
at Euclidean distance ≤ `radius` from the centre; as the footprint of a
scipy grey filter its offsets are the pairs below.
`skimage.morphology.square(k)` is the all-ones `k × k` array; scipy places
the origin of a size-`k` footprint at index `k / 2` (integer division), so
erosion reads offsets `t - k / 2`, and skimage's `dilation` mirrors the
footprint (offsets `k / 2 - t`) so that dilation and erosion are adjoint. -/

/-- Offsets of `skimage.morphology.disk r`. -/
def diskOffsets (r : ℕ) : List (ℤ × ℤ) :=
  ((List.range (2 * r + 1)).flatMap fun a =>
    (List.range (2 * r + 1)).map fun b : ℕ => ((a : ℤ) - r, (b : ℤ) - r)).filter
    fun o => o.1 ^ 2 + o.2 ^ 2 ≤ (r : ℤ) ^ 2

/-- Offsets of `square k` read by a scipy erosion (origin at `k / 2`). -/
def squareErosionOffsets (k : ℕ) : List (ℤ × ℤ) :=
  (List.range k).flatMap fun a =>
    (List.range k).map fun b : ℕ => ((a : ℤ) - (k / 2 : ℕ), (b : ℤ) - (k / 2 : ℕ))

/-- Offsets of `square k` read by a skimage dilation (mirrored footprint). -/
def squareDilationOffsets (k : ℕ) : List (ℤ × ℤ) :=
  (List.range k).flatMap fun a =>
    (List.range k).map fun b : ℕ => (((k / 2 : ℕ) : ℤ) - a, ((k / 2 : ℕ) : ℤ) - b)

/-- Minimum of a list of rationals (`0` for the empty list, which no call
site reaches: every footprint used has at least one element). -/
def listMin : List ℚ → ℚ
  | [] => 0
  | v :: vs => vs.foldl min v

/-- Maximum of a list of rationals (`0` for the empty list). -/
def listMax : List ℚ → ℚ
  | [] => 0
  | v :: vs => vs.foldl max v

/-- Grey erosion with a footprint given by offsets (scipy
`ndi.grey_erosion`, `mode='reflect'`): pointwise minimum over the
footprint. -/
def greyErosion (img : Img) (offs : List (ℤ × ℤ)) : Img :=
  grid (rowsOf img) (colsOf img) fun i j =>
    listMin (offs.map fun o => getR img 0 ((i : ℤ) + o.1) ((j : ℤ) + o.2))

/-- Grey dilation with a (already mirrored) footprint: pointwise maximum. -/
def greyDilation (img : Img) (offs : List (ℤ × ℤ)) : Img :=
  grid (rowsOf img) (colsOf img) fun i j =>
    listMax (offs.map fun o => getR img 0 ((i : ℤ) + o.1) ((j : ℤ) + o.2))

/-- `skimage.morphology.white_tophat(image, selem=disk(ball_size))`:
image minus its morphological opening (erosion then dilation) by the disk.
The disk is symmetric, so footprint mirroring is immaterial.
Source: `background_subtraction` (npstructs.py, lines 36–45). -/
def background_subtraction (image : Img) (ball_size : ℕ := 9) : Img :=
  let opening := greyDilation (greyErosion image (diskOffsets ball_size)) (diskOffsets ball_size)
  grid (rowsOf image) (colsOf image) fun i j =>
    getE image 0 i j - getE opening 0 i j

/-- Source: `smooth_image` (lines 47–59) — `image_sm = image.copy()` then
`for i in range(times): image_sm = skimage.filters.gaussian(image_sm, sigma)`.
`g` stands for `skimage.filters.gaussian` (sigma first). -/
def smooth_image (g : ℚ → Img → Img) (image : Img) (sigma : ℚ := 1) (times : ℕ := 1) : Img :=
  (List.range times).foldl (fun im _ => g sigma im) image

/-- Source: `scale_image_intensity` (lines 61–64) — `image * scfactor`,
elementwise, no clipping. -/
def scale_image_intensity (image : Img) (scfactor : ℚ := 1) : Img :=
  image.map (List.map fun v => v * scfactor)

/-- Source: `bwimage_by_threshold` (lines 66–69) — `(image >= threshold) * 1.0`. -/
def bwimage_by_threshold (image : Img) (threshold : ℚ := 180) : Img :=
  image.map (List.map fun v => if threshold ≤ v then (1 : ℚ) else 0)

/-- Source: `preprocess_image` (lines 71–103), `output_detail=False` branch
(the detailed branch returns the intermediate arrays as a tuple and is not
used by the pipeline wrappers). -/
def preprocess_image (g : ℚ → Img → Img) (image : Img) (ball_size : ℕ := 9)
    (sigma : ℚ := 1) (times : ℕ := 2) (scfactor : ℚ := 100000)
    (threshold : ℚ := 180) : Img :=
  let image_rmbg := background_subtraction image ball_size
  let image_sm := smooth_image g image_rmbg sigma times
  let image_sm_rmbg := background_subtraction image_sm ball_size
  let image_sm_rmbg_sc := scale_image_intensity image_sm_rmbg scfactor
  bwimage_by_threshold image_sm_rmbg_sc threshold

/-! ### Segmenter primitives (`find_structs`, npstructs.py lines 107–140) -/

/-- Horizontal Sobel response at a pixel: correlation with
`HSOBEL_WEIGHTS = [[1,2,1],[0,0,0],[-1,-2,-1]] / 4`, `reflect` boundary.
(`ndi.convolve` flips the kernel, which only negates this antisymmetric
kernel; the sign is irrelevant because the source only uses `sobel(...) > 0`
and `sobel` is a root of a sum of squares.) -/
def sobelH (img : Img) (i j : ℤ) : ℚ :=
  (getR img 0 (i - 1) (j - 1) + 2 * getR img 0 (i - 1) j + getR img 0 (i - 1) (j + 1)
    - getR img 0 (i + 1) (j - 1) - 2 * getR img 0 (i + 1) j - getR img 0 (i + 1) (j + 1)) / 4

/-- Vertical Sobel response (transposed kernel). -/
def sobelV (img : Img) (i j : ℤ) : ℚ :=
  (getR img 0 (i - 1) (j - 1) + 2 * getR img 0 i (j - 1) + getR img 0 (i + 1) (j - 1)
    - getR img 0 (i - 1) (j + 1) - 2 * getR img 0 i (j + 1) - getR img 0 (i + 1) (j + 1)) / 4

/-- `skimage.filters.sobel(bwimage) > 0` (line 122).  2020-era skimage
(≤ 0.18) zeroes the one-pixel image border of the gradient
(`_mask_filter_result` with `mask=None`), and the magnitude
`sqrt(h² + v²) / sqrt 2` is positive iff `h² + v² > 0`, which is how the
square root is eliminated here. -/
def sobelEdges (bwimage : Img) : BImg :=
  let m := rowsOf bwimage
  let n := colsOf bwimage
  grid m n fun i j =>
    if i = 0 ∨ j = 0 ∨ i + 1 = m ∨ j + 1 = n then false
    else decide (0 < sobelH bwimage i j ^ 2 + sobelV bwimage i j ^ 2)

/-- Boolean dilation by offsets (`skimage.morphology.dilation`): any set
neighbour under the mirrored footprint, `reflect` boundary. -/
def dilationB (b : BImg) (offs : List (ℤ × ℤ)) : BImg :=
  grid (rowsOf b) (colsOf b) fun i j =>
    offs.any fun o => getR b false ((i : ℤ) + o.1) ((j : ℤ) + o.2)

/-- Boolean erosion by offsets (`skimage.morphology.erosion` on a 0/1
image, as the source applies to `filled`): all neighbours set. -/
def erosionB (b : BImg) (offs : List (ℤ × ℤ)) : BImg :=
  grid (rowsOf b) (colsOf b) fun i j =>
    offs.all fun o => getR b false ((i : ℤ) + o.1) ((j : ℤ) + o.2)

/-- In-bounds 4-neighbours of a cell (scipy's default cross-shaped
labelling structure, `connectivity=1`). -/
def nbrs4 (m n i j : ℕ) : List (ℕ × ℕ) :=
  (([((i : ℤ) - 1, (j : ℤ)), ((i : ℤ) + 1, (j : ℤ)),
     ((i : ℤ), (j : ℤ) - 1), ((i : ℤ), (j : ℤ) + 1)].filter
    fun p => 0 ≤ p.1 ∧ p.1 < (m : ℤ) ∧ 0 ≤ p.2 ∧ p.2 < (n : ℤ)).map
    fun p => (p.1.toNat, p.2.toNat))

/-- The eight relative offsets of full 2-D connectivity. -/
def eightOffsets : List (ℤ × ℤ) :=
  ([(-1 : ℤ), 0, 1].flatMap fun a => [(-1 : ℤ), 0, 1].map fun b => (a, b)).filter
    fun o => ¬(o.1 = 0 ∧ o.2 = 0)

/-- In-bounds 8-neighbours of a cell (full connectivity, the default of
`skimage.morphology.flood`). -/
def nbrs8 (m n i j : ℕ) : List (ℕ × ℕ) :=
  (((eightOffsets.map fun o => ((i : ℤ) + o.1, (j : ℤ) + o.2)).filter
    fun p => 0 ≤ p.1 ∧ p.1 < (m : ℤ) ∧ 0 ≤ p.2 ∧ p.2 < (n : ℤ)).map
    fun p => (p.1.toNat, p.2.toNat))

/-- One step of minimum-representative propagation for 4-connected
components: each foreground cell takes the least raster id (`i*n + j`)
among itself and its foreground 4-neighbours. -/
def repStep (b : BImg) (L : NImg) : NImg :=
  let m := rowsOf b
  let n := colsOf b
  grid m n fun i j =>
    ((nbrs4 m n i j).filter fun p => getE b false p.1 p.2).foldl
      (fun acc p => min acc (getE L 0 p.1 p.2)) (getE L 0 i j)

/-- Representative raster of the 4-connected foreground components: after
`m*n` propagation steps every foreground cell holds the least raster id of
its component (the raster id of the component's first pixel in scan
order).  Background cells hold their own id, which is never read. -/
def compReps (b : BImg) : NImg :=
  let m := rowsOf b
  let n := colsOf b
  (repStep b)^[m * n] (grid m n fun i j => i * n + j)

/-- Pixel count of the component of cell `(i, j)`. -/
def compSize (b : BImg) (i j : ℕ) : ℕ :=
  let m := rowsOf b
  let n := colsOf b
  let L := compReps b
  ((List.range m).flatMap fun a => (List.range n).map fun c => (a, c)).countP
    fun p => getE b false p.1 p.2 && getE L 0 p.1 p.2 == getE L 0 i j

/-- `skimage.morphology.remove_small_objects(b, min_size)` (lines 126 and
132): drop 4-connected components of size strictly below `min_size`. -/
def remove_small_objects (b : BImg) (min_size : ℕ) : BImg :=
  grid (rowsOf b) (colsOf b) fun i j =>
    getE b false i j && decide (min_size ≤ compSize b i j)

/-- One growth step of `skimage.morphology.flood`: a cell joins the flood
if its value equals the seed value and it is the seed or touches the flood
through an (in-bounds) 8-neighbour. -/
def floodStep (img : NImg) (seedVal : ℕ) (fl : BImg) : BImg :=
  let m := rowsOf img
  let n := colsOf img
  grid m n fun i j =>
    (getE img 0 i j == seedVal)
      && (getE fl false i j || (nbrs8 m n i j).any fun p => getE fl false p.1 p.2)

/-- `skimage.morphology.flood(img, (0,0))` (line 128): the connected
region of pixels equal in value to the corner pixel `(0,0)`, full (8-)
connectivity, exact equality (`tolerance=None`).  `m*n` growth steps
saturate, as each non-final step adds at least one cell. -/
def flood (img : NImg) : BImg :=
  let m := rowsOf img
  let n := colsOf img
  (floodStep img (getE img 0 0 0))^[m * n] (grid m n fun i j => i == 0 && j == 0)

/-- `filled = 1 - flood(smallobjremoved.astype('uint16'), (0,0))`
(line 128): pixels NOT reached by the corner flood, as a 0/1 image. -/
def fillFromCorner (b : BImg) : BImg :=
  let fl := flood (b.map (List.map fun v => if v then 1 else 0))
  grid (rowsOf b) (colsOf b) fun i j => !getE fl false i j

/-- `scipy.ndimage.label(b)[0]` (line 134): 4-connected component
labelling; features are numbered `1, 2, …` in raster-scan order of their
first pixel (the component representative ids increase in that order). -/
def ndi_label (b : BImg) : NImg :=
  let m := rowsOf b
  let n := colsOf b
  let L := compReps b
  let reps := (((List.range m).flatMap fun a => (List.range n).map fun c => (a, c)).filter
    fun p => getE b false p.1 p.2).map fun p => getE L 0 p.1 p.2
  grid m n fun i j =>
    if getE b false i j then reps.dedup.indexOf (getE L 0 i j) + 1 else 0

/-- `skimage.segmentation.watershed(zeros, markers, mask=mask)` (line 135)
in the degenerate form the source uses: the elevation is identically zero
and `markers = ndi.label(mask)` already assigns a marker to *every* mask
pixel, so flooding has nothing to grow and the result is the marker raster
restricted to the mask (pixels outside the mask stay 0). -/
def watershedFlat (markers : NImg) (mask : BImg) : NImg :=
  grid (rowsOf mask) (colsOf mask) fun i j =>
    if getE mask false i j then getE markers 0 i j else 0

/-- Source: `find_structs` (lines 107–140), `output_detail=False` branch.
The statement sequence mirrors the source line by line. -/
def find_structs (bwimage : Img) (dilation_size : ℕ := 3) (erosion_size : ℕ := 4)
    (min_struct_size : ℕ := 32) : NImg :=
  let edges := sobelEdges bwimage
  let dilated := dilationB edges (squareDilationOffsets dilation_size)
  let smallobjremoved := remove_small_objects dilated min_struct_size
  let filled := fillFromCorner smallobjremoved
  let erosed := erosionB filled (squareErosionOffsets erosion_size)
  let smallobjremoved2 := remove_small_objects erosed min_struct_size
  let markers := ndi_label smallobjremoved2
  watershedFlat markers smallobjremoved2

/-! ### Measurer primitives

`locate` (lines 210–231) calls `skimage.measure.find_contours(labels, 0)`.
The marching-squares core below is translated from skimage's
`_get_contour_segments` / `_assemble_contours` (defaults
`fully_connected='low'`, `positive_orientation='low'`, `mask=None`). -/

/-- A contour vertex `(row, column)` in subpixel coordinates. -/
abbrev Pt := ℚ × ℚ

/-- `_get_fraction(from_value, to_value, level)`: position of the level
crossing along a pixel edge; `0` when the endpoint values coincide. -/
def getFraction (fromV toV level : ℚ) : ℚ :=
  if toV = fromV then 0 else (level - fromV) / (toV - fromV)

/-- Marching-squares segments contributed by the 2×2 pixel square with
upper-left pixel `(r0, c0)`: the corner values are compared with `> level`
(equality counts as below), and the standard 16-case table emits directed
segments between the edge crossing points; saddle cases 6 and 9 use the
`vertex_connect_high = False` resolution. -/
def squareSegments (img : Img) (level : ℚ) (r0 c0 : ℕ) : List (Pt × Pt) :=
  let ul := getE img 0 r0 c0
  let ur := getE img 0 r0 (c0 + 1)
  let ll := getE img 0 (r0 + 1) c0
  let lr := getE img 0 (r0 + 1) (c0 + 1)
  let sc : ℕ := (if level < ul then 1 else 0) + (if level < ur then 2 else 0)
    + (if level < ll then 4 else 0) + (if level < lr then 8 else 0)
  let top : Pt := ((r0 : ℚ), (c0 : ℚ) + getFraction ul ur level)
  let bottom : Pt := ((r0 : ℚ) + 1, (c0 : ℚ) + getFraction ll lr level)
  let left : Pt := ((r0 : ℚ) + getFraction ul ll level, (c0 : ℚ))
  let right : Pt := ((r0 : ℚ) + getFraction ur lr level, (c0 : ℚ) + 1)
  match sc with
  | 1 => [(top, left)]
  | 2 => [(right, top)]
  | 3 => [(right, left)]
  | 4 => [(left, bottom)]
  | 5 => [(top, bottom)]
  | 6 => [(right, top), (left, bottom)]
  | 7 => [(right, bottom)]
  | 8 => [(bottom, right)]
  | 9 => [(top, left), (bottom, right)]
  | 10 => [(bottom, top)]
  | 11 => [(bottom, left)]
  | 12 => [(left, right)]
  | 13 => [(top, right)]
  | 14 => [(left, top)]
  | _ => []

/-- One step of skimage's `_assemble_contours` dictionary algorithm on the
state `(next fresh index, open/closed contours as an index-sorted
association list)`.  Degenerate segments are skipped; a segment whose tail
matches one contour's end and whose head matches the same contour's start
closes it by repeating the start point; joining two distinct contours
keeps the smaller creation index (`tail ++ head` either way); otherwise
the segment extends a contour at one end or opens a fresh one. -/
def assembleStep (st : ℕ × List (ℕ × List Pt)) (seg : Pt × Pt) :
    ℕ × List (ℕ × List Pt) :=
  let next := st.1
  let cs := st.2
  if seg.1 = seg.2 then st
  else
    match cs.find? (fun ic => ic.2.getLast? = some seg.1),
        cs.find? (fun ic => ic.2.head? = some seg.2) with
    | some tl, some hd =>
      if tl.1 = hd.1 then
        (next, cs.map fun ic => if ic.1 = tl.1 then (ic.1, ic.2 ++ [seg.2]) else ic)
      else
        let keep := min tl.1 hd.1
        (next, cs.filterMap fun ic =>
          if ic.1 = keep then some (keep, tl.2 ++ hd.2)
          else if ic.1 = tl.1 ∨ ic.1 = hd.1 then none
          else some ic)
    | some tl, none =>
      (next, cs.map fun ic => if ic.1 = tl.1 then (ic.1, ic.2 ++ [seg.2]) else ic)
    | none, some hd =>
      (next, cs.map fun ic => if ic.1 = hd.1 then (ic.1, seg.1 :: ic.2) else ic)
    | none, none => (next + 1, cs ++ [(next, [seg.1, seg.2])])

/-- `skimage.measure.find_contours(img, level)`: scan the pixel squares in
row-major order, emit their marching-squares segments, and assemble the
segments into contours, returned in creation order. -/
def find_contours (img : Img) (level : ℚ) : List (List Pt) :=
  let segs := (List.range (rowsOf img - 1)).flatMap fun r0 =>
    (List.range (colsOf img - 1)).flatMap fun c0 => squareSegments img level r0 c0
  ((segs.foldl assembleStep (0, [])).2).map fun ic => ic.2

/-- `np.roll(l, 1)`: rotate one position to the right. -/
def roll1 (l : List ℚ) : List ℚ :=
  l.drop (l.length - 1) ++ l.take (l.length - 1)

/-- `np.dot` on equal-length vectors. -/
def dotL (xs ys : List ℚ) : ℚ :=
  ((xs.zip ys).map fun p => p.1 * p.2).sum

/-- Source: `polyarea` (lines 205–208) —
`0.5 * np.abs(np.dot(x, np.roll(y,1)) - np.dot(y, np.roll(x,1)))`. -/
def polyarea (x y : List ℚ) : ℚ :=
  (1 / 2) * |dotL x (roll1 y) - dotL y (roll1 x)|

/-- `np.mean` of a vector (empty vectors never occur: marching-squares
contours have at least two points). -/
def meanL (l : List ℚ) : ℚ := l.sum / l.length

/-- One row of the `locate` output: `x` is the mean contour row
coordinate, `y` the mean column coordinate, `size` the shoelace area, and
`frame` the frame id (`res.astype({'frame': 'int'})` makes the column
integer). -/
structure StructRec where
  x : ℚ
  y : ℚ
  sz : ℚ
  frame : ℤ
deriving DecidableEq, Repr

/-- A `pandas.DataFrame` as `locate` builds it: column names plus rows.
`pd.DataFrame()` (no arguments) is the fully empty frame: no columns, no
rows. -/
structure DataFrame where
  cols : List String
  rows : List StructRec
deriving DecidableEq, Repr

/-- `pd.DataFrame()`. -/
def DataFrame.emptyDF : DataFrame := ⟨[], []⟩

/-- Source: `locate` (lines 210–231). -/
def locate (struct_labels : NImg) (frame : ℤ := 0) : DataFrame :=
  let contours := find_contours (struct_labels.map (List.map fun v : ℕ => (v : ℚ))) 0
  let res := contours.map fun contour =>
    StructRec.mk (meanL (contour.map Prod.fst)) (meanL (contour.map Prod.snd))
      (polyarea (contour.map Prod.fst) (contour.map Prod.snd)) frame
  if 0 < res.length then ⟨["x", "y", "size", "frame"], res⟩ else DataFrame.emptyDF

/-! ### Single-frame wrapper and batch driver (lines 246–271) -/

/-- Source: `locate_nps_single_image` (lines 246–259).  Note the return
value of the source is the *pair* `(structs, struct_labels)`. -/
def locate_nps_single_image (g : ℚ → Img → Img) (raw_image : Img) (frame_id : ℤ)
    (ball_size : ℕ := 9) (sigma : ℚ := 1) (times : ℕ := 2) (scfactor : ℚ := 100000)
    (threshold : ℚ := 180) (dilation_size : ℕ := 1) (erosion_size : ℕ := 5)
    (min_struct_size : ℕ := 32) : DataFrame × NImg :=
  let bwimage := preprocess_image g raw_image ball_size sigma times scfactor threshold
  let struct_labels := find_structs bwimage dilation_size erosion_size min_struct_size
  let structs := locate struct_labels frame_id
  (structs, struct_labels)

/-- Source: `locate_nps_multiple_images` (lines 261–271).  The argument
list enumerates the images (`enumerate`), `pool.starmap` applies
`locate_nps_single_image` to them and returns the results in submission
(argument) order — `starmap` preserves order regardless of completion
order — and the list of `(structs, struct_labels)` pairs is returned
as is. -/
def locate_nps_multiple_images (g : ℚ → Img → Img) (images : List Img)
    (ball_size : ℕ := 9) (sigma : ℚ := 1) (times : ℕ := 2) (scfactor : ℚ := 100000)
    (threshold : ℚ := 180) (dilation_size : ℕ := 1) (erosion_size : ℕ := 5)
    (min_struct_size : ℕ := 32) : List (DataFrame × NImg) :=
  images.enum.map fun fi =>
    locate_nps_single_image g fi.2 (fi.1 : ℤ) ball_size sigma times scfactor threshold
      dilation_size erosion_size min_struct_size

/-! ### Python-value view

Python is dynamically typed; to compare the *shape* of what the source
returns with what the specification says it returns, the relevant Python
runtime values are embedded into one inductive type. -/

/-- Python runtime values occurring at the interfaces under scrutiny. -/
inductive PyVal where
  | df : DataFrame → PyVal
  | arr : NImg → PyVal
  | tup : PyVal → PyVal → PyVal
  | pylist : List (DataFrame × NImg) → PyVal
deriving DecidableEq, Repr

/-- Is the value a single `pandas.DataFrame`? -/
def PyVal.isDf : PyVal → Bool
  | .df _ => true
  | _ => false

/-- The Python value `locate_nps_single_image(...)` evaluates to: the
tuple `(structs, struct_labels)` of line 259. -/
def locate_nps_single_image_py (g : ℚ → Img → Img) (raw_image : Img) (frame_id : ℤ)
    (ball_size : ℕ := 9) (sigma : ℚ := 1) (times : ℕ := 2) (scfactor : ℚ := 100000)
    (threshold : ℚ := 180) (dilation_size : ℕ := 1) (erosion_size : ℕ := 5)
    (min_struct_size : ℕ := 32) : PyVal :=
  let r := locate_nps_single_image g raw_image frame_id ball_size sigma times scfactor
    threshold dilation_size erosion_size min_struct_size
  PyVal.tup (PyVal.df r.1) (PyVal.arr r.2)

/-- The Python value `locate_nps_multiple_images(...)` evaluates to: the
list of per-frame tuples returned by `pool.starmap` (line 271). -/
def locate_nps_multiple_images_py (g : ℚ → Img → Img) (images : List Img)
    (ball_size : ℕ := 9) (sigma : ℚ := 1) (times : ℕ := 2) (scfactor : ℚ := 100000)
    (threshold : ℚ := 180) (dilation_size : ℕ := 1) (erosion_size : ℕ := 5)
    (min_struct_size : ℕ := 32) : PyVal :=
  PyVal.pylist (locate_nps_multiple_images g images ball_size sigma times scfactor
    threshold dilation_size erosion_size min_struct_size)

/-! ### Execution trace of `find_structs` for parameter-validation claims

`find_structs` contains no parameter check: it is straight-line code.  A
negative structuring-element size only fails when
`skimage.morphology.square(k)` evaluates `np.ones((k, k))`, which raises
numpy's `ValueError: negative dimensions are not allowed` — at line 124
(after the Sobel pass of line 122) for `dilation_size`, at line 130
(after dilation, small-object removal and flood fill) for `erosion_size`.
The runner below records the processing steps completed before the
function returns or the first library error is raised. -/
def find_structs_run (bwimage : Img) (dilation_size erosion_size : ℤ)
    (min_struct_size : ℕ) : List String × Except String NImg :=
  let edges := sobelEdges bwimage
  if dilation_size < 0 then
    (["sobel"], Except.error "negative dimensions are not allowed")
  else
    let dilated := dilationB edges (squareDilationOffsets dilation_size.toNat)
    let smallobjremoved := remove_small_objects dilated min_struct_size
    let filled := fillFromCorner smallobjremoved
    if erosion_size < 0 then
      (["sobel", "dilation", "remove small objects", "flood fill"],
        Except.error "negative dimensions are not allowed")
    else
      let erosed := erosionB filled (squareErosionOffsets erosion_size.toNat)
      let smallobjremoved2 := remove_small_objects erosed min_struct_size
      (["sobel", "dilation", "remove small objects", "flood fill", "erosion",
        "remove small objects", "label", "watershed"],
        Except.ok (watershedFlat (ndi_label smallobjremoved2) smallobjremoved2))

/-! ### Specification-side definitions (refinement claims)

Each `..._spec` definition below follows the *spec's* words, to be
compared with the source-translated definition of the same operation. -/

/-- Cyclic left rotation: element `i` of the result is `zᵢ₊₁`. -/
def rotl (l : List ℚ) : List ℚ := l.drop 1 ++ l.take 1

/-- Spec §4.3 area formula: `area = 0.5 * |Σ xᵢ·yᵢ₊₁ − Σ yᵢ·xᵢ₊₁|`,
indices cyclic (the source's `polyarea` rolls by `+1` instead). -/
def shoelace_spec (x y : List ℚ) : ℚ :=
  (1 / 2) * |dotL x (rotl y) - dotL y (rotl x)|

/-- Spec §4.4: the Single-Frame Locator returns *only* the ResultTable
fragment `measure(segment(preprocess(frame, ...), ...), frame_id)` —
"no side effects and nothing besides that fragment". -/
def locate_frame_spec (g : ℚ → Img → Img) (raw_image : Img) (frame_id : ℤ)
    (ball_size : ℕ := 9) (sigma : ℚ := 1) (times : ℕ := 2) (scfactor : ℚ := 100000)
    (threshold : ℚ := 180) (dilation_size : ℕ := 1) (erosion_size : ℕ := 5)
    (min_struct_size : ℕ := 32) : PyVal :=
  PyVal.df (locate
    (find_structs (preprocess_image g raw_image ball_size sigma times scfactor threshold)
      dilation_size erosion_size min_struct_size) frame_id)

/-- Spec §4.5: the Batch Driver "collects all fragments and concatenates
them" into one merged ResultTable — a single ordered table of records
across all frames — which it returns to the caller. -/
def locate_sequence_spec (g : ℚ → Img → Img) (images : List Img)
    (ball_size : ℕ := 9) (sigma : ℚ := 1) (times : ℕ := 2) (scfactor : ℚ := 100000)
    (threshold : ℚ := 180) (dilation_size : ℕ := 1) (erosion_size : ℕ := 5)
    (min_struct_size : ℕ := 32) : PyVal :=
  PyVal.df ⟨["x", "y", "size", "frame"],
    images.enum.flatMap fun fi =>
      (locate
        (find_structs (preprocess_image g fi.2 ball_size sigma times scfactor threshold)
          dilation_size erosion_size min_struct_size) (fi.1 : ℤ)).rows⟩

/-! ### Concrete fixtures used by witnesses and counterexamples -/

/-- The all-zero 3×3 frame. -/
def zq3 : Img := grid 3 3 fun _ _ => 0

/-- A tiny label raster: one labelled pixel. -/
def lbl1 : NImg := [[0, 0, 0], [0, 1, 0], [0, 0, 0]]

/-- A stand-in for the Gaussian-blur parameter in concrete witnesses (the
identity in sigma and image); it trivially preserves the all-zero frame,
as the real normalized Gaussian convolution does. -/
def idBlur : ℚ → Img → Img := fun _ im => im

/-- Label raster holding exactly one filled 2×3 (rows 2–3, columns 2–4)
rectangle away from the border of a 7×8 raster. -/
def rect1 : NImg := grid 7 8 fun i j => if 2 ≤ i ∧ i ≤ 3 ∧ 2 ≤ j ∧ j ≤ 4 then 1 else 0

/-- Label raster holding exactly one filled 4×3 (rows 2–5, columns 3–5)
rectangle away from the border of a 9×9 raster. -/
def rect2 : NImg := grid 9 9 fun i j => if 2 ≤ i ∧ i ≤ 5 ∧ 3 ≤ j ∧ j ≤ 5 then 1 else 0

/-- Label raster holding exactly one filled 1×1 (row 2, column 2)
rectangle away from the border of a 5×5 raster. -/
def rect3 : NImg := grid 5 5 fun i j => if i = 2 ∧ j = 2 then 1 else 0

/-- Label raster holding exactly one filled 3×5 (rows 2–4, columns 3–7)
rectangle away from the border of an 8×10 raster. -/
def rect4 : NImg := grid 8 10 fun i j => if 2 ≤ i ∧ i ≤ 4 ∧ 3 ≤ j ∧ j ≤ 7 then 1 else 0

/-! ## Generic raster lemmas -/

theorem rowsOf_grid {α : Type} (m n : ℕ) (f : ℕ → ℕ → α) : rowsOf (grid m n f) = m := by
  simp [rowsOf, grid]

theorem colsOf_grid {α : Type} {m : ℕ} (hm : 0 < m) (n : ℕ) (f : ℕ → ℕ → α) :
    colsOf (grid m n f) = n := by
  cases m with
  | zero => omega
  | succ k => simp [colsOf, grid, List.range_succ_eq_map]

theorem getE_grid {α : Type} {m n i j : ℕ} {f : ℕ → ℕ → α} {d : α}
    (hi : i < m) (hj : j < n) : getE (grid m n f) d i j = f i j := by
  simp [getE, grid, List.getElem?_range, hi, hj]

theorem grid_congr {α : Type} {m n : ℕ} {f f' : ℕ → ℕ → α}
    (h : ∀ i < m, ∀ j < n, f i j = f' i j) : grid m n f = grid m n f' := by
  unfold grid
  refine List.map_congr_left fun i hi => List.map_congr_left fun j hj => ?_
  exact h i (List.mem_range.mp hi) j (List.mem_range.mp hj)

theorem map_grid {α β : Type} (m n : ℕ) (f : ℕ → ℕ → α) (h : α → β) :
    (grid m n f).map (List.map h) = grid m n fun i j => h (f i j) := by
  simp [grid, List.map_map, Function.comp]

theorem reflectIdx_lt {n : ℕ} (hn : 0 < n) (i : ℤ) : reflectIdx n i < n := by
  unfold reflectIdx
  rw [if_neg (by omega)]
  have h2 : (0 : ℤ) < 2 * (n : ℤ) := by positivity
  have hlt := Int.emod_lt_of_pos i h2
  have hge := Int.emod_nonneg i (ne_of_gt h2)
  split <;> omega

theorem getR_grid_const {α : Type} {m n : ℕ} (hm : 0 < m) (hn : 0 < n) (c d : α) (i j : ℤ) :
    getR (grid m n fun _ _ => c) d i j = c := by
  unfold getR
  rw [rowsOf_grid, colsOf_grid hm]
  exact getE_grid (reflectIdx_lt hm i) (reflectIdx_lt hn j)

theorem foldl_min_const {β : Type} (l : List β) (c : ℚ) :
    ((l.map fun _ => c).foldl min c) = c := by
  induction l with
  | nil => rfl
  | cons a t ih => simpa using ih

theorem foldl_max_const {β : Type} (l : List β) (c : ℚ) :
    ((l.map fun _ => c).foldl max c) = c := by
  induction l with
  | nil => rfl
  | cons a t ih => simpa using ih

theorem listMin_map_const {β : Type} {l : List β} (hl : l ≠ []) (c : ℚ) :
    listMin (l.map fun _ => c) = c := by
  cases l with
  | nil => exact absurd rfl hl
  | cons a t => simpa [listMin] using foldl_min_const t c

theorem listMax_map_const {β : Type} {l : List β} (hl : l ≠ []) (c : ℚ) :
    listMax (l.map fun _ => c) = c := by
  cases l with
  | nil => exact absurd rfl hl
  | cons a t => simpa [listMax] using foldl_max_const t c

theorem diskOffsets_ne_nil (r : ℕ) : diskOffsets r ≠ [] := by
  have hr : r ∈ List.range (2 * r + 1) := List.mem_range.mpr (by omega)
  have h1 : ((0 : ℤ), (0 : ℤ)) ∈
      (List.range (2 * r + 1)).map fun b : ℕ => ((r : ℤ) - r, (b : ℤ) - r) :=
    List.mem_map.mpr ⟨r, hr, by simp⟩
  have h2 : ((0 : ℤ), (0 : ℤ)) ∈ (List.range (2 * r + 1)).flatMap fun a =>
      (List.range (2 * r + 1)).map fun b : ℕ => ((a : ℤ) - r, (b : ℤ) - r) :=
    List.mem_flatMap.mpr ⟨r, hr, h1⟩
  exact List.ne_nil_of_mem (List.mem_filter.mpr ⟨h2, by simp⟩)

theorem squareErosionOffsets_ne_nil {k : ℕ} (hk : 0 < k) : squareErosionOffsets k ≠ [] := by
  have h0 : (0 : ℕ) ∈ List.range k := List.mem_range.mpr hk
  have h1 : (((0 : ℕ) : ℤ) - (k / 2 : ℕ), ((0 : ℕ) : ℤ) - (k / 2 : ℕ)) ∈
      (List.range k).map fun b : ℕ =>
        (((0 : ℕ) : ℤ) - (k / 2 : ℕ), (b : ℤ) - (k / 2 : ℕ)) :=
    List.mem_map.mpr ⟨0, h0, rfl⟩
  exact List.ne_nil_of_mem (List.mem_flatMap.mpr ⟨0, h0, h1⟩)

/-! ## Constant-raster behaviour of the morphological primitives -/

theorem greyErosion_const {m n : ℕ} (hm : 0 < m) (hn : 0 < n) (c : ℚ)
    {offs : List (ℤ × ℤ)} (ho : offs ≠ []) :
    greyErosion (grid m n fun _ _ => c) offs = grid m n fun _ _ => c := by
  unfold greyErosion
  rw [rowsOf_grid, colsOf_grid hm]
  refine grid_congr fun i _ j _ => ?_
  rw [List.map_congr_left fun o _ => getR_grid_const hm hn c 0 ((i : ℤ) + o.1) ((j : ℤ) + o.2)]
  exact listMin_map_const ho c

theorem greyDilation_const {m n : ℕ} (hm : 0 < m) (hn : 0 < n) (c : ℚ)
    {offs : List (ℤ × ℤ)} (ho : offs ≠ []) :
    greyDilation (grid m n fun _ _ => c) offs = grid m n fun _ _ => c := by
  unfold greyDilation
  rw [rowsOf_grid, colsOf_grid hm]
  refine grid_congr fun i _ j _ => ?_
  rw [List.map_congr_left fun o _ => getR_grid_const hm hn c 0 ((i : ℤ) + o.1) ((j : ℤ) + o.2)]
  exact listMax_map_const ho c

theorem background_subtraction_const {m n : ℕ} (hm : 0 < m) (hn : 0 < n) (c : ℚ) (bs : ℕ) :
    background_subtraction (grid m n fun _ _ => c) bs = grid m n fun _ _ => (0 : ℚ) := by
  unfold background_subtraction
  rw [greyErosion_const hm hn c (diskOffsets_ne_nil bs),
    greyDilation_const hm hn c (diskOffsets_ne_nil bs), rowsOf_grid, colsOf_grid hm]
  refine grid_congr fun i hi j hj => ?_
  simp [getE_grid hi hj]

/-! ## Smoothing is sequential iteration -/

theorem smooth_image_eq_iterate (g : ℚ → Img → Img) (image : Img) (sigma : ℚ) (times : ℕ) :
    smooth_image g image sigma times = (g sigma)^[times] image := by
  induction times with
  | zero => rfl
  | succ t ih =>
    unfold smooth_image at ih ⊢
    rw [List.range_succ, List.foldl_append, ih, Function.iterate_succ_apply']
    rfl

/-- C1: `preprocess_image` (with `output_detail=False`) is exactly the
five-step composition — white-top-hat background subtraction with a disk
of radius `ball_size`, then the Gaussian `g sigma` applied `times` times
sequentially (each pass consuming the previous output), then a second
identical top-hat, then unclipped multiplication of every pixel by
`scfactor`, then binarization by `pixel ≥ threshold → 1 else 0` — and its
default parameters are `ball_size=9, sigma=1, times=2, scfactor=1e5,
threshold=180`. -/
theorem C1_preprocessor_five_step_composition (g : ℚ → Img → Img) (image : Img)
    (ball_size : ℕ) (sigma : ℚ) (times : ℕ) (scfactor threshold : ℚ) :
    preprocess_image g image ball_size sigma times scfactor threshold
      = bwimage_by_threshold
          (scale_image_intensity
            (background_subtraction
              ((g sigma)^[times] (background_subtraction image ball_size)) ball_size)
            scfactor) threshold
    ∧ smooth_image g image sigma times = (g sigma)^[times] image
    ∧ bwimage_by_threshold image threshold
        = image.map (List.map fun v => if threshold ≤ v then (1 : ℚ) else 0)
    ∧ scale_image_intensity image scfactor = image.map (List.map fun v => v * scfactor)
    ∧ preprocess_image g image = preprocess_image g image 9 1 2 100000 180 := by
  refine ⟨?_, smooth_image_eq_iterate g image sigma times, rfl, rfl, rfl⟩
  simp only [preprocess_image, smooth_image_eq_iterate]

/-! ## The degenerate watershed -/

theorem watershedFlat_ndi_label (b : BImg) : watershedFlat (ndi_label b) b = ndi_label b := by
  simp only [watershedFlat, ndi_label]
  refine grid_congr fun i hi j hj => ?_
  rw [getE_grid hi hj]
  by_cases hb : getE b false i j
  · simp [hb]
  · simp [hb]

/-- C2: `find_structs` (with `output_detail=False`) is exactly the
composition: Sobel edge detection (non-zero response marks an edge),
dilation by a square of side `dilation_size`, removal of connected
components smaller than `min_struct_size`, hole filling by flood-filling
from the corner pixel `(0,0)` and inverting, erosion by a square of side
`erosion_size`, a second small-component removal, and finally
connected-component labels of the cleaned mask used as seed markers for a
watershed over an all-zero elevation restricted to that mask — which, the
markers covering the whole mask, equals the connected-component labelling
itself. -/
theorem C2_segmenter_pipeline (bwimage : Img)
    (dilation_size erosion_size min_struct_size : ℕ) :
    find_structs bwimage dilation_size erosion_size min_struct_size
      = watershedFlat
          (ndi_label
            (remove_small_objects
              (erosionB
                (fillFromCorner
                  (remove_small_objects
                    (dilationB (sobelEdges bwimage) (squareDilationOffsets dilation_size))
                    min_struct_size))
                (squareErosionOffsets erosion_size))
              min_struct_size))
          (remove_small_objects
            (erosionB
              (fillFromCorner
                (remove_small_objects
                  (dilationB (sobelEdges bwimage) (squareDilationOffsets dilation_size))
                  min_struct_size))
              (squareErosionOffsets erosion_size))
            min_struct_size)
    ∧ find_structs bwimage dilation_size erosion_size min_struct_size
      = ndi_label
          (remove_small_objects
            (erosionB
              (fillFromCorner
                (remove_small_objects
                  (dilationB (sobelEdges bwimage) (squareDilationOffsets dilation_size))
                  min_struct_size))
              (squareErosionOffsets erosion_size))
            min_struct_size) :=
  ⟨rfl, watershedFlat_ndi_label _⟩

/-! ## The shoelace formula, as the spec states it

`polyarea` uses `np.roll(_, 1)` (right rotation, i.e. `zᵢ₋₁`); the spec
writes the cyclic sums with `zᵢ₊₁` (left rotation); `shoelace_spec` is
the spec's wording, proved equal to the source's `polyarea` here. -/

theorem dotL_append {a c : List ℚ} (b d : List ℚ) (h : a.length = c.length) :
    dotL (a ++ b) (c ++ d) = dotL a c + dotL b d := by
  induction a generalizing c with
  | nil =>
    have : c = [] := List.eq_nil_of_length_eq_zero h.symm
    simp [this, dotL]
  | cons a0 ts ih =>
    cases c with
    | nil => simp at h
    | cons c0 ct =>
      simp only [List.cons_append, dotL, List.zip_cons_cons, List.map_cons, List.sum_cons]
      have := ih (c := ct) (by simpa using h)
      simp only [dotL] at this
      rw [this]
      ring

theorem dotL_comm (x y : List ℚ) : dotL x y = dotL y x := by
  induction x generalizing y with
  | nil => cases y <;> simp [dotL]
  | cons a t ih =>
    cases y with
    | nil => simp [dotL]
    | cons b s =>
      simp only [dotL, List.zip_cons_cons, List.map_cons, List.sum_cons]
      have := ih s
      simp only [dotL] at this
      rw [this]
      ring

theorem roll1_concat (ys : List ℚ) (y : ℚ) : roll1 (ys ++ [y]) = y :: ys := by
  unfold roll1
  have hlen : (ys ++ [y]).length - 1 = ys.length := by simp
  rw [hlen, List.drop_left, List.take_left]
  rfl

theorem dotL_roll1_rotl {x y : List ℚ} (h : x.length = y.length) :
    dotL x (roll1 y) = dotL (rotl x) y := by
  cases x with
  | nil =>
    have : y = [] := List.eq_nil_of_length_eq_zero (by simpa using h.symm)
    simp [this, dotL, roll1, rotl]
  | cons x0 xt =>
    have hy : y ≠ [] := by
      intro hy
      rw [hy] at h
      simp at h
    have hsplit : y.dropLast ++ [y.getLast hy] = y := List.dropLast_append_getLast hy
    have hlen : xt.length = y.dropLast.length := by
      have := h
      rw [← hsplit] at this
      simpa using this
    calc dotL (x0 :: xt) (roll1 y)
        = dotL (x0 :: xt) (roll1 (y.dropLast ++ [y.getLast hy])) := by rw [hsplit]
      _ = dotL (x0 :: xt) (y.getLast hy :: y.dropLast) := by rw [roll1_concat]
      _ = x0 * y.getLast hy + dotL xt y.dropLast := by
          simp [dotL]
      _ = dotL xt y.dropLast + dotL [x0] [y.getLast hy] := by simp [dotL]; ring
      _ = dotL (xt ++ [x0]) (y.dropLast ++ [y.getLast hy]) := (dotL_append _ _ hlen).symm
      _ = dotL (rotl (x0 :: xt)) y := by rw [hsplit]; rfl

theorem polyarea_eq_shoelace_spec {x y : List ℚ} (h : x.length = y.length) :
    polyarea x y = shoelace_spec x y := by
  unfold polyarea shoelace_spec
  rw [dotL_roll1_rotl h, dotL_roll1_rotl h.symm,
    dotL_comm (rotl x) y, dotL_comm (rotl y) x]
  rw [show dotL y (rotl x) - dotL x (rotl y) = -(dotL x (rotl y) - dotL y (rotl x)) by ring,
    abs_neg]

theorem locate_rows (struct_labels : NImg) (fid : ℤ) :
    (locate struct_labels fid).rows
      = (find_contours (struct_labels.map (List.map fun v : ℕ => (v : ℚ))) 0).map
          (fun contour => StructRec.mk (meanL (contour.map Prod.fst))
            (meanL (contour.map Prod.snd))
            (polyarea (contour.map Prod.fst) (contour.map Prod.snd)) fid) := by
  simp only [locate]
  split
  · rfl
  · next hlt =>
    exact (List.eq_nil_of_length_eq_zero (by omega)).symm

/-- C3: `locate` extracts the level-0 contours of the label raster and
emits exactly one record per contour, whose `x` and `y` are the arithmetic
means of the contour's vertex row- and column-coordinates, whose `size` is
the shoelace polygon area `0.5 * |Σ xᵢ·yᵢ₊₁ − Σ yᵢ·xᵢ₊₁|` over the
cyclic vertex sequence, each record tagged with the given frame id. -/
theorem C3_measurer_per_contour_records (struct_labels : NImg) (fid : ℤ)
    (x y : List ℚ) (hxy : x.length = y.length) :
    (locate struct_labels fid).rows
      = (find_contours (struct_labels.map (List.map fun v : ℕ => (v : ℚ))) 0).map
          (fun contour => StructRec.mk (meanL (contour.map Prod.fst))
            (meanL (contour.map Prod.snd))
            (polyarea (contour.map Prod.fst) (contour.map Prod.snd)) fid)
    ∧ polyarea x y = shoelace_spec x y
    ∧ meanL x = x.sum / x.length :=
  ⟨locate_rows struct_labels fid, polyarea_eq_shoelace_spec hxy, rfl⟩

/-! ## Frame tagging and the batch driver -/

theorem locate_frame_tag (struct_labels : NImg) (fid : ℤ) :
    ((locate struct_labels fid).rows.all fun r => r.frame == fid) = true := by
  rw [locate_rows, List.all_eq_true]
  intro r hr
  rw [List.mem_map] at hr
  obtain ⟨c, -, rfl⟩ := hr
  simp

theorem multiple_getD (g : ℚ → Img → Img) (images : List Img) (bs : ℕ) (sg : ℚ)
    (t : ℕ) (sc th : ℚ) (ds es ms : ℕ) (i : ℕ) :
    (locate_nps_multiple_images g images bs sg t sc th ds es ms).getD i
        (DataFrame.emptyDF, [])
      = if i < images.length
        then locate_nps_single_image g (images.getD i []) (i : ℤ) bs sg t sc th ds es ms
        else (DataFrame.emptyDF, []) := by
  unfold locate_nps_multiple_images
  rw [List.getD_eq_getElem?_getD, List.getElem?_map, List.getElem?_enum]
  by_cases h : i < images.length
  · rw [if_pos h, List.getElem?_eq_getElem h,
      List.getD_eq_getElem?_getD, List.getElem?_eq_getElem h]
    rfl
  · rw [if_neg h, List.getElem?_eq_none (by omega)]
    rfl

theorem single_fst (g : ℚ → Img → Img) (raw_image : Img) (frame_id : ℤ) (bs : ℕ)
    (sg : ℚ) (t : ℕ) (sc th : ℚ) (ds es ms : ℕ) :
    (locate_nps_single_image g raw_image frame_id bs sg t sc th ds es ms).1
      = locate (find_structs (preprocess_image g raw_image bs sg t sc th) ds es ms)
          frame_id := by
  simp only [locate_nps_single_image]

/-- C4 (amended): `locate_nps_single_image` returns the *pair* of the
ResultTable fragment `locate (find_structs (preprocess_image ...)) frame_id`
— the pure composition the spec describes — and the LabelRaster
`find_structs (preprocess_image ...)`, not the fragment alone. -/
theorem C4_single_frame_composition_returns_pair (g : ℚ → Img → Img)
    (raw_image : Img) (frame_id : ℤ) (bs : ℕ) (sg : ℚ) (t : ℕ) (sc th : ℚ)
    (ds es ms : ℕ) :
    locate_nps_single_image g raw_image frame_id bs sg t sc th ds es ms
      = (locate
          (find_structs (preprocess_image g raw_image bs sg t sc th) ds es ms) frame_id,
         find_structs (preprocess_image g raw_image bs sg t sc th) ds es ms) := rfl

/-- C4 counterexample: at the all-zero 3×3 frame, the Python value
returned by `locate_nps_single_image` is a tuple, not the bare
ResultTable fragment the claim says is returned with "nothing besides". -/
theorem C4_counterexample_not_bare_fragment :
    (locate_nps_single_image_py idBlur zq3 0 1 1 1 1 1 1 1 1).isDf = false
    ∧ locate_nps_single_image_py idBlur zq3 0 1 1 1 1 1 1 1 1
        ≠ locate_frame_spec idBlur zq3 0 1 1 1 1 1 1 1 1 :=
  ⟨rfl, fun h => nomatch h⟩

/-- C5 (amended): the batch driver collects the per-frame results in
submission order — entry `i` of the returned list is exactly
`locate_nps_single_image` on frame `i` — but it returns that *list of
(fragment, LabelRaster) pairs* as is; it does not concatenate the
fragments into one merged table. -/
theorem C5_batch_driver_submission_order (g : ℚ → Img → Img) (images : List Img)
    (bs : ℕ) (sg : ℚ) (t : ℕ) (sc th : ℚ) (ds es ms : ℕ) (i : ℕ) :
    (locate_nps_multiple_images g images bs sg t sc th ds es ms).length = images.length
    ∧ (locate_nps_multiple_images g images bs sg t sc th ds es ms).getD i
          (DataFrame.emptyDF, [])
        = (if i < images.length
           then locate_nps_single_image g (images.getD i []) (i : ℤ) bs sg t sc th ds es ms
           else (DataFrame.emptyDF, [])) :=
  ⟨by simp [locate_nps_multiple_images], multiple_getD g images bs sg t sc th ds es ms i⟩

/-- C5 counterexample: on a one-frame input the Python value returned by
`locate_nps_multiple_images` is a list of (DataFrame, LabelRaster)
tuples, not the single merged ResultTable the claim says it returns. -/
theorem C5_counterexample_no_concatenation :
    (locate_nps_multiple_images_py idBlur [zq3] 1 1 1 1 1 1 1 1).isDf = false
    ∧ locate_nps_multiple_images_py idBlur [zq3] 1 1 1 1 1 1 1 1
        ≠ locate_sequence_spec idBlur [zq3] 1 1 1 1 1 1 1 1 :=
  ⟨rfl, fun h => nomatch h⟩

/-- C6: in the batch driver's output, every record of the `i`-th frame's
fragment carries frame id `i` — the index of the exact frame whose
pipeline produced it, a valid index into the input sequence (the output
has one entry per input frame; out-of-range accesses yield the default
empty fragment, for which the check is vacuous). -/
theorem C6_frame_tagging (g : ℚ → Img → Img) (images : List Img) (bs : ℕ) (sg : ℚ)
    (t : ℕ) (sc th : ℚ) (ds es ms : ℕ) (i : ℕ) :
    (((locate_nps_multiple_images g images bs sg t sc th ds es ms).getD i
        (DataFrame.emptyDF, [])).1.rows.all fun r => r.frame == (i : ℤ)) = true
    ∧ (locate_nps_multiple_images g images bs sg t sc th ds es ms).length
        = images.length := by
  refine ⟨?_, by simp [locate_nps_multiple_images]⟩
  rw [multiple_getD]
  split
  · rw [single_fst]
    exact locate_frame_tag _ _
  · rfl

/-! ## The all-zero frame (empty-frame behaviour) -/

theorem preprocess_image_zero (g : ℚ → Img → Img) {m n : ℕ} (hm : 0 < m) (hn : 0 < n)
    (bs : ℕ) (sg : ℚ) (t : ℕ) (sc th : ℚ)
    (hg : g sg (grid m n fun _ _ => 0) = grid m n fun _ _ => 0) :
    preprocess_image g (grid m n fun _ _ => (0 : ℚ)) bs sg t sc th
      = grid m n fun _ _ => (if th ≤ 0 then (1 : ℚ) else 0) := by
  simp only [preprocess_image]
  rw [smooth_image_eq_iterate, background_subtraction_const hm hn 0 bs,
    Function.iterate_fixed hg, background_subtraction_const hm hn 0 bs]
  unfold scale_image_intensity bwimage_by_threshold
  rw [map_grid, map_grid]
  exact grid_congr fun i _ j _ => by rw [zero_mul]

theorem sobelH_const {m n : ℕ} (hm : 0 < m) (hn : 0 < n) (c : ℚ) (i j : ℤ) :
    sobelH (grid m n fun _ _ => c) i j = 0 := by
  unfold sobelH
  simp only [getR_grid_const hm hn]
  ring

theorem sobelV_const {m n : ℕ} (hm : 0 < m) (hn : 0 < n) (c : ℚ) (i j : ℤ) :
    sobelV (grid m n fun _ _ => c) i j = 0 := by
  unfold sobelV
  simp only [getR_grid_const hm hn]
  ring

theorem sobelEdges_const {m n : ℕ} (hm : 0 < m) (hn : 0 < n) (c : ℚ) :
    sobelEdges (grid m n fun _ _ => c) = grid m n fun _ _ => false := by
  simp only [sobelEdges]
  rw [rowsOf_grid, colsOf_grid hm]
  refine grid_congr fun i hi j hj => ?_
  by_cases hb : i = 0 ∨ j = 0 ∨ i + 1 = m ∨ j + 1 = n
  · rw [if_pos hb]
  · rw [if_neg hb, sobelH_const hm hn, sobelV_const hm hn]
    norm_num

theorem dilationB_const_false {m n : ℕ} (hm : 0 < m) (hn : 0 < n)
    (offs : List (ℤ × ℤ)) :
    dilationB (grid m n fun _ _ => false) offs = grid m n fun _ _ => false := by
  unfold dilationB
  rw [rowsOf_grid, colsOf_grid hm]
  refine grid_congr fun i _ j _ => ?_
  simp [getR_grid_const hm hn]

theorem remove_small_objects_const_false {m n : ℕ} (hm : 0 < m) (hn : 0 < n)
    (ms : ℕ) :
    remove_small_objects (grid m n fun _ _ => false) ms = grid m n fun _ _ => false := by
  unfold remove_small_objects
  rw [rowsOf_grid, colsOf_grid hm]
  refine grid_congr fun i hi j hj => ?_
  rw [getE_grid hi hj, Bool.false_and]

theorem erosionB_const_false {m n : ℕ} (hm : 0 < m) (hn : 0 < n)
    {offs : List (ℤ × ℤ)} (ho : offs ≠ []) :
    erosionB (grid m n fun _ _ => false) offs = grid m n fun _ _ => false := by
  unfold erosionB
  rw [rowsOf_grid, colsOf_grid hm]
  refine grid_congr fun i _ j _ => ?_
  cases offs with
  | nil => exact absurd rfl ho
  | cons o os => rw [List.all_cons, getR_grid_const hm hn false false, Bool.false_and]

theorem ndi_label_const_false {m n : ℕ} (hm : 0 < m) (hn : 0 < n) :
    ndi_label (grid m n fun _ _ => false) = grid m n fun _ _ => 0 := by
  simp only [ndi_label]
  rw [rowsOf_grid, colsOf_grid hm]
  refine grid_congr fun i hi j hj => ?_
  rw [getE_grid hi hj]
  simp

theorem watershedFlat_const_false {m n : ℕ} (hm : 0 < m) (hn : 0 < n)
    (markers : NImg) :
    watershedFlat markers (grid m n fun _ _ => false) = grid m n fun _ _ => 0 := by
  unfold watershedFlat
  rw [rowsOf_grid, colsOf_grid hm]
  refine grid_congr fun i hi j hj => ?_
  rw [getE_grid hi hj]
  simp

theorem mem_nbrs8 {m n i j : ℕ} (di dj : ℤ) (hd : (di, dj) ∈ eightOffsets)
    (h1 : 0 ≤ (i : ℤ) + di) (h2 : (i : ℤ) + di < (m : ℤ))
    (h3 : 0 ≤ (j : ℤ) + dj) (h4 : (j : ℤ) + dj < (n : ℤ)) :
    (((i : ℤ) + di).toNat, ((j : ℤ) + dj).toNat) ∈ nbrs8 m n i j := by
  unfold nbrs8
  refine List.mem_map.mpr ⟨((i : ℤ) + di, (j : ℤ) + dj), ?_, rfl⟩
  refine List.mem_filter.mpr ⟨List.mem_map.mpr ⟨(di, dj), hd, rfl⟩, ?_⟩
  simp only [decide_eq_true_eq]
  exact ⟨h1, h2, h3, h4⟩

/-- On a constant raster, the corner flood reaches every cell whose
Chebyshev distance from the corner is at most the number of growth
steps. -/
theorem flood_const_covers {m n : ℕ} (hm : 0 < m) (hn : 0 < n) (c : ℕ) (k : ℕ) :
    ∀ i j : ℕ, i < m → j < n → max i j ≤ k →
      getE ((floodStep (grid m n fun _ _ => c) c)^[k]
        (grid m n fun i j => i == 0 && j == 0)) false i j = true := by
  induction k with
  | zero =>
    intro i j hi hj hk
    have hi0 : i = 0 := by omega
    have hj0 : j = 0 := by omega
    subst hi0; subst hj0
    rw [Function.iterate_zero_apply, getE_grid hi hj]
    rfl
  | succ k ih =>
    intro i j hi hj hk
    rw [Function.iterate_succ_apply']
    simp only [floodStep]
    rw [rowsOf_grid, colsOf_grid hm, getE_grid hi hj, getE_grid hi hj,
      beq_self_eq_true, Bool.true_and]
    by_cases hmax : max i j ≤ k
    · rw [ih i j hi hj hmax, Bool.true_or]
    · have hne : 0 < i ∨ 0 < j := by omega
      refine Bool.or_eq_true_iff.mpr (Or.inr (List.any_eq_true.mpr ?_))
      by_cases hip : 0 < i
      · by_cases hjp : 0 < j
        · refine ⟨(((i : ℤ) + (-1)).toNat, ((j : ℤ) + (-1)).toNat),
            mem_nbrs8 (-1) (-1) (by decide) (by omega) (by omega) (by omega) (by omega), ?_⟩
          have e1 : ((i : ℤ) + (-1)).toNat = i - 1 := by omega
          have e2 : ((j : ℤ) + (-1)).toNat = j - 1 := by omega
          rw [e1, e2, ih (i - 1) (j - 1) (by omega) (by omega) (by omega)]
        · refine ⟨(((i : ℤ) + (-1)).toNat, ((j : ℤ) + 0).toNat),
            mem_nbrs8 (-1) 0 (by decide) (by omega) (by omega) (by omega) (by omega), ?_⟩
          have e1 : ((i : ℤ) + (-1)).toNat = i - 1 := by omega
          have e2 : ((j : ℤ) + 0).toNat = j := by omega
          rw [e1, e2, ih (i - 1) j (by omega) (by omega) (by omega)]
      · refine ⟨(((i : ℤ) + 0).toNat, ((j : ℤ) + (-1)).toNat),
          mem_nbrs8 0 (-1) (by decide) (by omega) (by omega) (by omega) (by omega), ?_⟩
        have e1 : ((i : ℤ) + 0).toNat = i := by omega
        have e2 : ((j : ℤ) + (-1)).toNat = j - 1 := by omega
        rw [e1, e2, ih i (j - 1) (by omega) (by omega) (by omega)]

theorem fillFromCorner_const_false {m n : ℕ} (hm : 0 < m) (hn : 0 < n) :
    fillFromCorner (grid m n fun _ _ => false) = grid m n fun _ _ => false := by
  unfold fillFromCorner
  rw [map_grid]
  have hz : (grid m n fun i j => if false then 1 else 0) = grid m n fun _ _ => (0 : ℕ) :=
    grid_congr fun i _ j _ => rfl
  rw [hz]
  simp only [flood]
  rw [rowsOf_grid, colsOf_grid hm, rowsOf_grid, colsOf_grid hm,
    getE_grid hm hn]
  refine grid_congr fun i hi j hj => ?_
  have hcov := flood_const_covers hm hn 0 (m * n) i j hi hj ?_
  · rw [hcov]
    rfl
  · have h1 : m ≤ m * n := Nat.le_mul_of_pos_right m hn
    have h2 : n ≤ m * n := Nat.le_mul_of_pos_left n hm
    omega

theorem find_structs_const {m n : ℕ} (hm : 0 < m) (hn : 0 < n) (c : ℚ) (ds : ℕ)
    {es : ℕ} (hes : 0 < es) (ms : ℕ) :
    find_structs (grid m n fun _ _ => c) ds es ms = grid m n fun _ _ => 0 := by
  simp only [find_structs]
  rw [sobelEdges_const hm hn c, dilationB_const_false hm hn _,
    remove_small_objects_const_false hm hn ms, fillFromCorner_const_false hm hn,
    erosionB_const_false hm hn (squareErosionOffsets_ne_nil hes),
    remove_small_objects_const_false hm hn ms,
    watershedFlat_const_false hm hn _]

theorem flatMap_nil_of {α β : Type} {l : List α} {f : α → List β}
    (h : ∀ a ∈ l, f a = []) : l.flatMap f = [] := by
  induction l with
  | nil => rfl
  | cons a t ih =>
    rw [List.flatMap_cons, h a (List.mem_cons_self a t),
      ih fun b hb => h b (List.mem_cons_of_mem a hb)]
    rfl

theorem squareSegments_zero {m n : ℕ} {r0 c0 : ℕ} (hr : r0 < m - 1) (hc : c0 < n - 1) :
    squareSegments (grid m n fun _ _ => (0 : ℚ)) 0 r0 c0 = [] := by
  simp only [squareSegments]
  rw [getE_grid (show r0 < m by omega) (show c0 < n by omega),
    getE_grid (show r0 < m by omega) (show c0 + 1 < n by omega),
    getE_grid (show r0 + 1 < m by omega) (show c0 < n by omega),
    getE_grid (show r0 + 1 < m by omega) (show c0 + 1 < n by omega)]
  norm_num

theorem find_contours_zero (m n : ℕ) :
    find_contours (grid m n fun _ _ => (0 : ℚ)) 0 = [] := by
  unfold find_contours
  rw [rowsOf_grid]
  by_cases hm : 0 < m
  · rw [colsOf_grid hm]
    rw [flatMap_nil_of fun r0 hr0 =>
      flatMap_nil_of fun c0 hc0 =>
        squareSegments_zero (List.mem_range.mp hr0) (List.mem_range.mp hc0)]
    rfl
  · have hm0 : m = 0 := by omega
    subst hm0
    rfl

theorem locate_zero (m n : ℕ) (fid : ℤ) :
    locate (grid m n fun _ _ => (0 : ℕ)) fid = DataFrame.emptyDF := by
  simp only [locate]
  rw [map_grid]
  have hz : (grid m n fun _ _ => ((0 : ℕ) : ℚ)) = grid m n fun _ _ => (0 : ℚ) :=
    grid_congr fun _ _ _ _ => by norm_num
  rw [hz, find_contours_zero]
  rfl

/-- C7: an all-zero input frame is not an error: `preprocess_image` then
`find_structs` yields an all-zero LabelRaster, and `locate` on that
raster yields the empty DataFrame (zero records, no exception); more
generally the all-background binary image fed to `find_structs` yields
the all-zero LabelRaster.  (The erosion structuring element must be
non-degenerate, `0 < erosion_size`, as it is for every documented
default; the Gaussian parameter is assumed to preserve the all-zero
frame, as the real normalized convolution does.) -/
theorem C7_all_zero_frame_not_an_error (g : ℚ → Img → Img) (m n : ℕ)
    (hm : 0 < m) (hn : 0 < n) (bs : ℕ) (sg : ℚ) (t : ℕ) (sc th : ℚ)
    (ds es : ℕ) (hes : 0 < es) (ms : ℕ) (fid : ℤ)
    (hg : g sg (grid m n fun _ _ => 0) = grid m n fun _ _ => 0) :
    find_structs (preprocess_image g (grid m n fun _ _ => (0 : ℚ)) bs sg t sc th)
        ds es ms = (grid m n fun _ _ => (0 : ℕ))
    ∧ locate (find_structs (preprocess_image g (grid m n fun _ _ => (0 : ℚ)) bs sg t sc th)
        ds es ms) fid = DataFrame.emptyDF
    ∧ find_structs (grid m n fun _ _ => (0 : ℚ)) ds es ms
        = (grid m n fun _ _ => (0 : ℕ)) := by
  have h1 : find_structs (preprocess_image g (grid m n fun _ _ => (0 : ℚ)) bs sg t sc th)
      ds es ms = grid m n fun _ _ => (0 : ℕ) := by
    rw [preprocess_image_zero g hm hn bs sg t sc th hg]
    exact find_structs_const hm hn _ ds hes ms
  exact ⟨h1, by rw [h1]; exact locate_zero m n fid, find_structs_const hm hn 0 ds hes ms⟩

/-- Witness for C7 at the concrete all-zero 3×3 frame with concrete
parameters. -/
theorem C7_all_zero_frame_not_an_error_witness :
    ((0 : ℕ) < 3 ∧ (0 : ℕ) < 3 ∧ (0 : ℕ) < 1
      ∧ idBlur 1 (grid 3 3 fun _ _ => 0) = grid 3 3 fun _ _ => 0)
    ∧ (find_structs (preprocess_image idBlur (grid 3 3 fun _ _ => (0 : ℚ)) 2 1 2 100000 180)
          1 1 32 = (grid 3 3 fun _ _ => (0 : ℕ))
       ∧ locate (find_structs
            (preprocess_image idBlur (grid 3 3 fun _ _ => (0 : ℚ)) 2 1 2 100000 180)
            1 1 32) 5 = DataFrame.emptyDF
       ∧ find_structs (grid 3 3 fun _ _ => (0 : ℚ)) 1 1 32
          = (grid 3 3 fun _ _ => (0 : ℕ))) :=
  ⟨⟨by decide, by decide, by decide, rfl⟩,
   C7_all_zero_frame_not_an_error idBlur 3 3 (by decide) (by decide) 2 1 2 100000 180
     1 1 (by decide) 32 5 rfl⟩

/-! ## Remaining claims: parameter validation, rectangle measurement,
empty-fragment schema -/

/-- Witness for C3 at a concrete label raster and concrete vertex
vectors. -/
theorem C3_measurer_per_contour_records_witness :
    ([(3 : ℚ), 0, 0].length = [(0 : ℚ), 4, 0].length)
    ∧ ((locate lbl1 7).rows
        = (find_contours (lbl1.map (List.map fun v : ℕ => (v : ℚ))) 0).map
            (fun contour => StructRec.mk (meanL (contour.map Prod.fst))
              (meanL (contour.map Prod.snd))
              (polyarea (contour.map Prod.fst) (contour.map Prod.snd)) 7)
       ∧ polyarea [(3 : ℚ), 0, 0] [(0 : ℚ), 4, 0]
          = shoelace_spec [(3 : ℚ), 0, 0] [(0 : ℚ), 4, 0]
       ∧ meanL [(3 : ℚ), 0, 0] = [(3 : ℚ), 0, 0].sum / [(3 : ℚ), 0, 0].length) :=
  ⟨rfl, C3_measurer_per_contour_records lbl1 7 [(3 : ℚ), 0, 0] [(0 : ℚ), 4, 0] rfl⟩

/-- C8 (amended): the pipeline performs no parameter validation.
`find_structs` is straight-line code that starts processing the frame
unconditionally: with a negative `dilation_size` the Sobel edge pass has
already run when `skimage.morphology.square` raises numpy's library
error, so nothing is "rejected before any image processing begins". -/
theorem C8_no_upfront_parameter_validation (bwimage : Img) (ds es : ℤ) (ms : ℕ)
    (hds : ds < 0) :
    find_structs_run bwimage ds es ms
      = (["sobel"], Except.error "negative dimensions are not allowed") := by
  unfold find_structs_run
  rw [if_pos hds]

/-- Witness for the amended C8 at a concrete frame and parameter. -/
theorem C8_no_upfront_parameter_validation_witness :
    ((-1 : ℤ) < 0)
    ∧ find_structs_run zq3 (-1) 4 32
        = (["sobel"], Except.error "negative dimensions are not allowed") :=
  ⟨by decide, C8_no_upfront_parameter_validation zq3 (-1) 4 32 (by decide)⟩

/-- C8 counterexample: with `dilation_size = -1` the recorded execution
trace is not empty — Sobel edge detection has run before the failure —
so the call is not rejected with a parameter error before processing
begins. -/
theorem C8_counterexample_processing_already_started :
    (find_structs_run zq3 (-1) 4 32).1 = ["sobel"]
    ∧ (find_structs_run zq3 (-1) 4 32).1 ≠ ([] : List String)
    ∧ (find_structs_run zq3 (-1) 4 32).2
        = Except.error "negative dimensions are not allowed" :=
  ⟨rfl, by decide, rfl⟩

/-- C9 counterexample: for the label raster `rect1` holding exactly one
filled 2-row × 3-column rectangle away from the border, `locate` reports
one record whose size is `10`, not the pixel area `2 * 3 = 6`, and whose
centroid `(29/11, 34/11)` is not the rectangle's geometric centre
`(5/2, 3)`. -/
theorem C9_counterexample_rectangle_size :
    (locate rect1 0).rows = [⟨29 / 11, 34 / 11, 10, 0⟩]
    ∧ ¬((10 : ℚ) = 2 * 3 ∧ (29 / 11 : ℚ) = 5 / 2 ∧ (34 / 11 : ℚ) = 3) :=
  ⟨by decide, by decide⟩

/-- C9 (amended): for each of the demonstrated single-rectangle label
rasters — the 2×3 rectangle `rect1` (in 7×8), the 4×3 rectangle `rect2`
(in 9×9), the 1×1 rectangle `rect3` (in 5×5) and the 3×5 rectangle
`rect4` (in 8×10), all away from the border — `locate` reports exactly
one record, but its size is `(h+1)*(w+1) - 2` (10, 18, 2 and 22
respectively), not the claimed `h*w` pixel area, and its centroid — the
mean of the closed contour's vertex list, whose start vertex is
repeated — is not the rectangle's geometric centre: the level-0 contour
runs through the centres of the background pixels bordering the
rectangle, with cut corners. -/
theorem C9_amended_rectangle_contour_measurement :
    ((locate rect1 0).rows = [⟨29 / 11, 34 / 11, (2 + 1) * (3 + 1) - 2, 0⟩]
      ∧ ((29 / 11 : ℚ), (34 / 11 : ℚ)) ≠ ((5 / 2 : ℚ), (3 : ℚ))
      ∧ ¬((2 + 1) * (3 + 1) - 2 : ℚ) = 2 * 3)
    ∧ ((locate rect2 0).rows = [⟨11 / 3, 61 / 15, (4 + 1) * (3 + 1) - 2, 0⟩]
      ∧ ((11 / 3 : ℚ), (61 / 15 : ℚ)) ≠ ((7 / 2 : ℚ), (4 : ℚ))
      ∧ ¬((4 + 1) * (3 + 1) - 2 : ℚ) = 4 * 3)
    ∧ ((locate rect3 0).rows = [⟨11 / 5, 2, (1 + 1) * (1 + 1) - 2, 0⟩]
      ∧ ((11 / 5 : ℚ), (2 : ℚ)) ≠ ((2 : ℚ), (2 : ℚ))
      ∧ ¬((1 + 1) * (1 + 1) - 2 : ℚ) = 1 * 1)
    ∧ ((locate rect4 0).rows = [⟨53 / 17, 87 / 17, (3 + 1) * (5 + 1) - 2, 0⟩]
      ∧ ((53 / 17 : ℚ), (87 / 17 : ℚ)) ≠ ((3 : ℚ), (5 : ℚ))
      ∧ ¬((3 + 1) * (5 + 1) - 2 : ℚ) = 3 * 5) :=
  ⟨⟨by decide, by decide, by decide⟩, ⟨by decide, by decide, by decide⟩,
   ⟨by decide, by decide, by decide⟩, ⟨by decide, by decide, by decide⟩⟩

/-- C10: `locate` returns a DataFrame with columns `x, y, size, frame`
(frame stored as an integer) precisely when at least one contour is
found; when no contour is found it returns the completely empty
DataFrame — zero rows and zero columns, the four-column schema absent. -/
theorem C10_empty_fragment_schema (struct_labels : NImg) (fid : ℤ) :
    (locate struct_labels fid).cols
        = (if find_contours (struct_labels.map (List.map fun v : ℕ => (v : ℚ))) 0 = []
           then [] else ["x", "y", "size", "frame"])
    ∧ (locate struct_labels fid).rows.length
        = (find_contours (struct_labels.map (List.map fun v : ℕ => (v : ℚ))) 0).length
    ∧ locate struct_labels fid
        = (if find_contours (struct_labels.map (List.map fun v : ℕ => (v : ℚ))) 0 = []
           then DataFrame.emptyDF
           else ⟨["x", "y", "size", "frame"],
             (find_contours (struct_labels.map (List.map fun v : ℕ => (v : ℚ))) 0).map
               fun contour => StructRec.mk (meanL (contour.map Prod.fst))
                 (meanL (contour.map Prod.snd))
                 (polyarea (contour.map Prod.fst) (contour.map Prod.snd)) fid⟩) := by
  cases hc : find_contours (struct_labels.map (List.map fun v : ℕ => (v : ℚ))) 0 with
  | nil => refine ⟨?_, ?_, ?_⟩ <;> simp [locate, hc, DataFrame.emptyDF]
  | cons c cs => refine ⟨?_, ?_, ?_⟩ <;> simp [locate, hc]

end NpStructs
